import Mathlib

/-!
Shallow embedding of the PyGraphVisualizer pathfinding core
(`src/main.py` and `src/graph_algo.py`) and proofs about it.

The grid is a rectangular collection of cells; each cell carries a color tag
(`main.py`'s `Color` enum) and a stored neighbor list (`Node._neighbors`),
mutated in place by the algorithms.  Cells are identified by their integer
coordinates `(row, col)`, matching `Node.__eq__`/`Node.__hash__` which compare
by coordinates only.  The three search strategies `BFS`, `DFS` and `AStar`
from `graph_algo.py` are embedded as fuel-indexed recursive functions over an
explicit grid state; the rendering callbacks are modelled observationally: a
step counter for `refresh_func` and a success counter plus the reconstructed
path for the `construct_path` sink.
-/

namespace PyGraphVisualizer

/-- A cell identity: `(row, col)`, i.e. `Node._xcoord, Node._ycoord`. -/
abbrev Cell := Nat × Nat

/-- The `Color` enum of `main.py` (the traversal-state tag of a cell). -/
inductive Color where
  | Background
  | Barrier
  | Visited
  | Open
  | Start
  | End
  | Path
  | Grid
deriving DecidableEq, Repr

/-- The grid state: dimensions, the color tag of every cell, and the stored
neighbor list of every cell (the mutable `Node._neighbors` field, kept as
coordinates since Python nodes compare by coordinates). -/
structure Grid where
  rows : Nat
  cols : Nat
  colors : List (List Color)
  adj : List (List (List Cell))
deriving DecidableEq, Repr

/-- Current color tag of the cell at coordinates `c` (out-of-range reads give
`Background`; all source accesses are in range). -/
def color_at (g : Grid) (c : Cell) : Color :=
  ((g.colors.getD c.1 []).getD c.2 Color.Background)

/-- Overwrite the color tag of one cell (a `Node` color setter). -/
def set_color (g : Grid) (c : Cell) (col : Color) : Grid :=
  { g with colors := g.colors.set c.1 ((g.colors.getD c.1 []).set c.2 col) }

/-- `Node.get_neighbors`: the stored neighbor list of the cell at `c`. -/
def get_neighbors (g : Grid) (c : Cell) : List Cell :=
  ((g.adj.getD c.1 []).getD c.2 [])

/-- `Node.is_barrier`. -/
def is_barrier (g : Grid) (c : Cell) : Bool :=
  decide (color_at g c = Color.Barrier)

/-- `Node.is_start`. -/
def is_start (g : Grid) (c : Cell) : Bool :=
  decide (color_at g c = Color.Start)

/-- `Node.make_open`. -/
def make_open (g : Grid) (c : Cell) : Grid := set_color g c Color.Open

/-- `Node.make_closed`. -/
def make_closed (g : Grid) (c : Cell) : Grid := set_color g c Color.Visited

/-- `Node.make_barrier`. -/
def make_barrier (g : Grid) (c : Cell) : Grid := set_color g c Color.Barrier

/-- `Node.make_start`. -/
def make_start (g : Grid) (c : Cell) : Grid := set_color g c Color.Start

/-- `Node.make_end`. -/
def make_end (g : Grid) (c : Cell) : Grid := set_color g c Color.End

/-- `Node.make_path`. -/
def make_path (g : Grid) (c : Cell) : Grid := set_color g c Color.Path

/-- `init_grid` of `main.py`: `rows × cols` cells, all `Background`, with
empty stored neighbor lists. -/
def init_grid (rows cols : Nat) : Grid :=
  { rows := rows
    cols := cols
    colors := List.replicate rows (List.replicate cols Color.Background)
    adj := List.replicate rows (List.replicate cols []) }

/-- `Node.update_neighbors`: the freshly recomputed neighbor list of the cell
at `(x, y)` — down, up, right, left, each guarded by the bounds check and by
`not is_barrier`, exactly as in `main.py` lines 150-164. -/
def update_neighbors (g : Grid) (x y : Nat) : List Cell :=
  (if x < g.rows - 1 ∧ is_barrier g (x + 1, y) = false then [((x + 1 : Nat), y)] else []) ++
  (if 0 < x ∧ is_barrier g (x - 1, y) = false then [((x - 1 : Nat), y)] else []) ++
  (if y < g.cols - 1 ∧ is_barrier g (x, y + 1) = false then [(x, (y + 1 : Nat))] else []) ++
  (if 0 < y ∧ is_barrier g (x, y - 1) = false then [(x, (y - 1 : Nat))] else [])

/-- The `main.py` loop run on SPACE: `node.update_neighbors(grid)` for every
node.  `update_neighbors` reads only color tags, never the stored lists, so
the sequential Python loop coincides with this simultaneous recomputation. -/
def update_all_neighbors (g : Grid) : Grid :=
  { g with
    adj := (List.range g.rows).map fun r => (List.range g.cols).map fun c =>
      update_neighbors g r c }

/-- Lookup in a Python dict keyed by cells (first binding wins; `dict_set`
keeps at most one binding per key). -/
def dict_get {β : Type} : List (Cell × β) → Cell → Option β
  | [], _ => none
  | (k', v) :: m, k => if k' = k then some v else dict_get m k

/-- Python dict assignment `m[k] = v`: replace the existing binding in place,
or append a fresh one. -/
def dict_set {β : Type} : List (Cell × β) → Cell → β → List (Cell × β)
  | [], k, v => [(k, v)]
  | (k', v') :: m, k, v =>
      if k' = k then (k, v) :: m else (k', v') :: dict_set m k v

/-- `construct_path` of `main.py`: walk backward through `came_from` from
`current` (the end node, per the partial application in `main`), tagging each
predecessor `Path` and appending it unless it `is_start`.  The walk is
fuel-indexed (the Python `while` loop would diverge on a cyclic map; every
map built by the algorithms is acyclic and `length + 1` fuel suffices). -/
def construct_path (fuel : Nat) (g : Grid) (current : Cell)
    (came_from : List (Cell × Cell)) (path : List Cell) : Grid × List Cell :=
  match fuel with
  | 0 => (g, path)
  | fuel + 1 =>
    match dict_get came_from current with
    | none => (g, path)
    | some prev =>
      if is_start g prev then construct_path fuel g prev came_from path
      else construct_path fuel (make_path g prev) prev came_from (path ++ [prev])

/-- Observable outcome of one `search` run: the boolean result, the final grid
state, the predecessor map, the number of `refresh_func` calls, the number of
`construct_path` (success sink) calls with the path it received, and the
traces of enqueued and expanded cells. -/
structure RunResult where
  found : Bool
  grid : Grid
  came_from : List (Cell × Cell)
  steps : Nat
  success_calls : Nat
  path : Option (List Cell)
  enqueued : List Cell
  expansions : List Cell
deriving DecidableEq, Repr

/-- One BFS expansion round's neighbor loop (`graph_algo.py` lines 48-55): for
each unvisited neighbor, enqueue it, record its predecessor, mark it visited,
and tag it `Open` unless it is the end node.  Returns the updated grid, queue,
visited list, predecessor map, and enqueue trace. -/
def bfs_expand (g : Grid) : List Cell → List Cell → List Cell →
    List (Cell × Cell) → List Cell → Cell → Cell →
    Grid × List Cell × List Cell × List (Cell × Cell) × List Cell
  | [], q, visited, came_from, enqueued, _, _ => (g, q, visited, came_from, enqueued)
  | n :: ns, q, visited, came_from, enqueued, current, end_node =>
    if n ∈ visited then bfs_expand g ns q visited came_from enqueued current end_node
    else
      let g' := if n = end_node then g else make_open g n
      bfs_expand g' ns (q ++ [n]) (visited ++ [n]) (dict_set came_from n current)
        (enqueued ++ [n]) current end_node

/-- The BFS main loop (`graph_algo.py` lines 35-62), fuel-indexed.  `none`
means the fuel ran out (never happens at the fuel `BFS` supplies, see
`bfs_fuel_sufficient`). -/
def bfsAux : Nat → Grid → List Cell → List Cell → List (Cell × Cell) →
    Cell → Cell → Nat → List Cell → List Cell → Option RunResult
  | 0, _, _, _, _, _, _, _, _, _ => none
  | _ + 1, g, [], _, came_from, _, _, steps, enqueued, expansions =>
    some ⟨false, g, came_from, steps, 0, none, enqueued, expansions⟩
  | fuel + 1, g, current :: rest, visited, came_from, start_node, end_node,
      steps, enqueued, expansions =>
    if current = end_node then
      let r := construct_path (came_from.length + 1) g end_node came_from []
      some ⟨true, r.1, came_from, steps, 1, some r.2, enqueued, expansions ++ [current]⟩
    else
      match bfs_expand g (get_neighbors g current) rest visited came_from enqueued
          current end_node with
      | (g', q', visited', came_from', enqueued') =>
        let g'' := if current = start_node then g' else make_closed g' current
        bfsAux fuel g'' q' visited' came_from' start_node end_node (steps + 1)
          enqueued' (expansions ++ [current])

/-- `BFS` of `graph_algo.py`: queue and visited set seeded with the start
node.  The fuel `rows * cols + 2` always suffices when the adjacency lists
are in bounds (`bfs_fuel_sufficient`). -/
def BFS (g : Grid) (start_node end_node : Cell) : Option RunResult :=
  bfsAux (g.rows * g.cols + 2) g [start_node] [start_node] [] start_node end_node
    0 [start_node] []

/-- The mutable state threaded through `DFSUtil`: the grid, the visited set,
the predecessor map, the module-level `stop_recursion` flag, and the
observational counters. -/
structure DfsState where
  g : Grid
  visited : List Cell
  came_from : List (Cell × Cell)
  stop_recursion : Bool
  steps : Nat
  success_calls : Nat
  path : Option (List Cell)
deriving DecidableEq, Repr

/-- The neighbor loop of `DFSUtil` (`graph_algo.py` lines 102-124).  The loop
either falls through (Python returns `None`, modelled `Sum.inl false`), hits
the `stop_recursion` break (also falling through to `None`), or reaches
`return DFSUtil(...)` on the first unvisited neighbor when no path was found
yet (`Sum.inr n`: the caller performs that tail call). -/
def dfs_scan (s : DfsState) : List Cell → Cell → Cell → Cell → Bool →
    DfsState × (Bool ⊕ Cell)
  | [], _, _, _, _ => (s, Sum.inl false)
  | n :: ns, current, start_node, end_node, found_path =>
    if s.stop_recursion then (s, Sum.inl false)
    else
      let s₁ := if n ∈ s.visited ∧ n ≠ start_node
        then { s with g := make_closed s.g n } else s
      if n ∈ s₁.visited then dfs_scan s₁ ns current start_node end_node found_path
      else
        let s₂ := { s₁ with came_from := dict_set s₁.came_from n current }
        let s₃ := if current ≠ start_node
          then { s₂ with g := make_closed s₂.g current } else s₂
        let sf :=
          if n = end_node then
            let r := construct_path (s₃.came_from.length + 1) s₃.g end_node
              s₃.came_from []
            ({ s₃ with
                g := r.1
                success_calls := s₃.success_calls + 1
                path := some r.2
                stop_recursion := true }, true)
          else (s₃, found_path)
        let s₄ := { sf.1 with steps := sf.1.steps + 1 }
        if sf.2 then dfs_scan s₄ ns current start_node end_node sf.2
        else (s₄, Sum.inr n)

/-- `DFSUtil` of `graph_algo.py`, fuel-indexed.  The Python return value is
truthy (`True`) or falsy (`None`); the returned `Bool` is its truthiness as
consumed by `if found:` in `DFS`.  `none` means the fuel ran out. -/
def DFSUtil : Nat → DfsState → Cell → Cell → Cell → Bool →
    Option (DfsState × Bool)
  | 0, _, _, _, _, _ => none
  | fuel + 1, s, current, start_node, end_node, found_path =>
    if found_path then some ({ s with stop_recursion := true }, true)
    else
      let s₁ := if current ∈ s.visited then s
        else { s with visited := s.visited ++ [current] }
      let s₂ := if current ≠ end_node
        then { s₁ with g := make_open s₁.g current } else s₁
      match dfs_scan s₂ (get_neighbors s₂.g current) current start_node end_node
          found_path with
      | (s₃, Sum.inl v) => some (s₃, v)
      | (s₃, Sum.inr n) => DFSUtil fuel s₃ n start_node end_node false

/-- The top-level loop of `DFS` (`graph_algo.py` lines 148-155): depth
traversal from each unvisited neighbor of the start node. -/
def dfs_top : List Cell → DfsState → Cell → Cell → Option RunResult
  | [], s, _, _ =>
    some ⟨false, s.g, s.came_from, s.steps, s.success_calls, s.path, [], []⟩
  | n :: ns, s, start_node, end_node =>
    if n ∈ s.visited then dfs_top ns s start_node end_node
    else
      match DFSUtil (s.g.rows * s.g.cols + 2) s n start_node end_node false with
      | none => none
      | some (s', found) =>
        if found then
          some ⟨true, s'.g, s'.came_from, s'.steps, s'.success_calls, s'.path, [], []⟩
        else dfs_top ns s' start_node end_node

/-- `DFS` of `graph_algo.py`: visited set seeded with the start node,
`stop_recursion` reset to `False`, then the top-level neighbor loop. -/
def DFS (g : Grid) (start_node end_node : Cell) : Option RunResult :=
  dfs_top (get_neighbors g start_node)
    { g := g, visited := [start_node], came_from := [], stop_recursion := false,
      steps := 0, success_calls := 0, path := none }
    start_node end_node

/-- `heuristic` of `graph_algo.py`: Manhattan distance between the two cells'
coordinates, `abs(x1-x2) + abs(y1-y2)`. -/
def heuristic (start_node end_node : Cell) : Nat :=
  ((start_node.1 : Int) - end_node.1).natAbs + ((start_node.2 : Int) - end_node.2).natAbs

/-- Extract the minimum entry of the priority queue.  Python's
`queue.PriorityQueue` orders tuples `(f_score, insertion_order, node)`
lexicographically; insertion orders are pairwise distinct, so the node
component never takes part in a comparison and ties on `f_score` go to the
oldest insertion. -/
def popMin : List (Nat × Nat × Cell) →
    Option ((Nat × Nat × Cell) × List (Nat × Nat × Cell))
  | [] => none
  | x :: xs =>
    match popMin xs with
    | none => some (x, [])
    | some (m, rest) =>
      if x.1 < m.1 ∨ (x.1 = m.1 ∧ x.2.1 ≤ m.2.1) then some (x, xs)
      else some (m, x :: rest)

/-- The mutable state of one `AStar` run.  The Python `g_score`/`f_score`
dicts initialize every grid node to `float("inf")`; here a missing binding is
infinity, so the comparison `tentative < g_score[neighbor]` with an absent
binding is `true` and `g_score[current]` absent (infinity) makes every
tentative score non-improving. -/
structure AStarSt where
  g : Grid
  q : List (Nat × Nat × Cell)
  item_order : Nat
  came_from : List (Cell × Cell)
  g_score : List (Cell × Nat)
  f_score : List (Cell × Nat)
  open_set : List Cell
  steps : Nat
  enqueued : List Cell
  expansions : List Cell
deriving DecidableEq, Repr

/-- The neighbor loop of `AStar` (`graph_algo.py` lines 215-229). -/
def astar_relax (s : AStarSt) : List Cell → Cell → Cell → AStarSt
  | [], _, _ => s
  | n :: ns, current, end_node =>
    match dict_get s.g_score current with
    | none => astar_relax s ns current end_node
    | some gc =>
      let t := gc + 1
      let better := match dict_get s.g_score n with
        | none => true
        | some gn => decide (t < gn)
      if better then
        let s₁ := { s with g_score := dict_set s.g_score n t,
                           f_score := dict_set s.f_score n (t + heuristic n end_node),
                           came_from := dict_set s.came_from n current }
        if n ∈ s₁.open_set then astar_relax s₁ ns current end_node
        else
          let s₂ := { s₁ with item_order := s₁.item_order + 1 }
          let s₃ := { s₂ with
            q := s₂.q ++ [(t + heuristic n end_node, s₂.item_order, n)],
            open_set := s₂.open_set ++ [n],
            enqueued := s₂.enqueued ++ [n] }
          let s₄ := if n = end_node then s₃ else { s₃ with g := make_open s₃.g n }
          astar_relax s₄ ns current end_node
      else astar_relax s ns current end_node

/-- The main loop of `AStar` (`graph_algo.py` lines 201-236), fuel-indexed. -/
def astar_aux : Nat → AStarSt → Cell → Cell → Option RunResult
  | 0, _, _, _ => none
  | fuel + 1, s, start_node, end_node =>
    match popMin s.q with
    | none => some ⟨false, s.g, s.came_from, s.steps, 0, none, s.enqueued, s.expansions⟩
    | some (entry, rest) =>
      let current := entry.2.2
      let s₁ := { s with q := rest, open_set := s.open_set.erase current,
                         expansions := s.expansions ++ [current] }
      if current = end_node then
        let r := construct_path (s₁.came_from.length + 1) s₁.g end_node s₁.came_from []
        some ⟨true, r.1, s₁.came_from, s₁.steps, 1, some r.2, s₁.enqueued, s₁.expansions⟩
      else
        let s₂ := astar_relax s₁ (get_neighbors s₁.g current) current end_node
        let s₃ := { s₂ with steps := s₂.steps + 1 }
        let s₄ := if current = start_node then s₃
          else { s₃ with g := make_closed s₃.g current }
        astar_aux fuel s₄ start_node end_node

/-- `AStar` of `graph_algo.py`: queue seeded with `(0, 0, start)`,
`g_score[start] = 0`, `f_score[start] = heuristic(start, end)`, open set
`{start}`.  Every queue push strictly lowers the pushed node's `g_score`, so
`(rows * cols)² + 2` fuel is far more than any run consumes. -/
def AStar (g : Grid) (start_node end_node : Cell) : Option RunResult :=
  astar_aux (g.rows * g.cols * (g.rows * g.cols) + 2)
    { g := g, q := [(0, 0, start_node)], item_order := 0, came_from := [],
      g_score := [(start_node, 0)],
      f_score := [(start_node, 0 + heuristic start_node end_node)],
      open_set := [start_node], steps := 0, enqueued := [start_node],
      expansions := [] }
    start_node end_node

/-- Grid construction along the `main.py` interaction flow: first click tags
the start node, second the end node (the same cell may be clicked twice,
leaving it tagged `End`), dragging tags barriers, and pressing SPACE runs
`update_neighbors` on every node before the search starts. -/
def demo_grid (rows cols : Nat) (s e : Cell) (barriers : List Cell) : Grid :=
  update_all_neighbors (barriers.foldl make_barrier (make_end (make_start (init_grid rows cols) s) e))

/-- A 3×3 obstacle-free grid, start `(0,0)`, end `(2,2)`. -/
def g33 : Grid := demo_grid 3 3 (0, 0) (2, 2) []

/-- A 2×3 obstacle-free grid, start `(0,0)`, end `(1,2)`. -/
def g23 : Grid := demo_grid 2 3 (0, 0) (1, 2) []

/-- The 5×5 obstacle-free grid of the spec's concrete scenario. -/
def g55 : Grid := demo_grid 5 5 (0, 0) (4, 4) []

/-- A 2×2 grid where the same cell was clicked for start and end. -/
def g22se : Grid := demo_grid 2 2 (0, 0) (0, 0) []

/-- A 2×2 grid with an obstacle at `(0,0)`, adjacency recomputed. -/
def g22b : Grid := update_all_neighbors (make_barrier (init_grid 2 2) (0, 0))

/-- A 4×13 grid with five obstacles on which the A* priority queue goes stale:
a cell's `g_score` improves while it sits in the open set, its queue entry
keeps the outdated priority, and the search reaches the end along a longer
route first. -/
def g413 : Grid :=
  demo_grid 4 13 (1, 12) (3, 0) [(1, 7), (1, 11), (2, 5), (2, 9), (3, 5)]

/-- Claim C1 (code bug witness): on the obstacle-free 3×3 grid with start
`(0,0)` and end `(2,2)` — no obstacles separate start from end — BFS and
AStar return true, but DFS returns false even though it reached the end and
invoked the success sink once.  `DFSUtil` can only `return True` when its
`found_path` argument is `True`, and every call site passes `False`, so `DFS`
never returns `True`. -/
theorem C1_dfs_returns_false_on_connected_grid :
    (BFS g33 (0, 0) (2, 2)).map (fun r => r.found) = some true ∧
    (AStar g33 (0, 0) (2, 2)).map (fun r => r.found) = some true ∧
    (DFS g33 (0, 0) (2, 2)).map (fun r => (r.found, r.success_calls)) =
      some (false, 1) :=
  ⟨rfl, rfl, rfl⟩

/-- Claim C2 counterexample: supplying start == end (cell `(0,0)` of a 2×2
grid, clicked twice so it is tagged `End`) does not produce any error: BFS
returns true having performed no round, while DFS performs two traversal
rounds and mutates cell `(0,1)` from `Background` to `Open` — refuting both
"reports an InvalidInput error before performing any traversal" and "without
mutating any cell's state tag". -/
theorem C2_no_invalid_input_check :
    color_at g22se (0, 1) = Color.Background ∧
    (BFS g22se (0, 0) (0, 0)).map (fun r => (r.found, r.steps)) = some (true, 0) ∧
    (DFS g22se (0, 0) (0, 0)).map (fun r => (color_at r.grid (0, 1), r.steps)) =
      some (Color.Open, 2) :=
  ⟨rfl, rfl, rfl⟩

/-- Claim C3 (code bug witness): on the obstacle-free 2×3 grid, DFS reaches
the end and invokes the success sink exactly once, yet subsequently returns
false, contradicting "whenever it is invoked the strategy subsequently
returns true".  BFS and AStar invoke it once and do return true. -/
theorem C3_success_sink_without_true_return :
    (DFS g23 (0, 0) (1, 2)).map (fun r => (r.success_calls, r.found)) =
      some (1, false) ∧
    (BFS g23 (0, 0) (1, 2)).map (fun r => (r.success_calls, r.found)) =
      some (1, true) ∧
    (AStar g23 (0, 0) (1, 2)).map (fun r => (r.success_calls, r.found)) =
      some (1, true) :=
  ⟨rfl, rfl, rfl⟩

/-- Claim C4 counterexample: on the 5×5 obstacle-free grid with start `(0,0)`
and end `(4,4)`, the path handed to the path sink does not have 8 cells with
the end included: `construct_path` starts its walk at `came_from[end]`, so
the end cell itself is never appended. -/
theorem C4_counterexample :
    ¬ ((BFS g55 (0, 0) (4, 4)).map
        (fun r => ((r.path.getD []).length, (r.path.getD []).contains (4, 4))) =
      some (8, true)) := by
  decide

/-- Claim C4 as amended: on the 5×5 obstacle-free grid BFS returns true and
the reconstructed path handed to the path sink contains exactly 7 cells,
excluding both the start cell and the end cell. -/
theorem C4_bfs_5x5_path_has_7_cells :
    (BFS g55 (0, 0) (4, 4)).map
      (fun r => (r.found, (r.path.getD []).length,
        (r.path.getD []).contains (4, 4), (r.path.getD []).contains (0, 0))) =
      some (true, 7, false, false) :=
  rfl

/-- Claim C5 counterexample: `update_neighbors` runs on every node, obstacle
nodes included, so after recomputation the obstacle at `(0,0)` of a 2×2 grid
has the non-empty neighbor list `[(1,0), (0,1)]`, refuting "that cell has an
empty neighbor sequence". -/
theorem C5_counterexample :
    color_at g22b (0, 0) = Color.Barrier ∧ get_neighbors g22b (0, 0) ≠ [] := by
  decide

/-- Claim C6 (code bug witness): on the 4×13 grid `g413` both searches
succeed, but BFS hands the path sink a 15-cell path while AStar hands it a
17-cell one.  When a cell's `g_score` improves while the cell is already in
the open set, `AStar` does not re-queue it, so the stale queue entry delays
its expansion and the end node is reached along a longer route first. -/
theorem C6_astar_path_longer_than_bfs :
    (BFS g413 (1, 12) (3, 0)).map
      (fun r => (r.found, (r.path.getD []).length)) = some (true, 15) ∧
    (AStar g413 (1, 12) (3, 0)).map
      (fun r => (r.found, (r.path.getD []).length)) = some (true, 17) :=
  ⟨rfl, rfl⟩

/-- Recomputing adjacency never touches color tags. -/
theorem color_at_update_all (g : Grid) (c : Cell) :
    color_at (update_all_neighbors g) c = color_at g c := rfl

/-- Claim C9: recomputing adjacency twice in a row, with no change to
obstacle tags in between, yields the same neighbor sequence for every cell
as recomputing once — `update_neighbors` reads only color tags, which the
recomputation leaves untouched. -/
theorem C9_recompute_adjacency_idempotent (g : Grid) (c : Cell) :
    get_neighbors (update_all_neighbors (update_all_neighbors g)) c =
      get_neighbors (update_all_neighbors g) c := rfl

/-- Stored adjacency after a recomputation, characterized cell by cell:
in-range cells get their freshly computed `update_neighbors` list,
out-of-range coordinates read the empty default. -/
theorem get_neighbors_update_all (g : Grid) (p : Cell) :
    get_neighbors (update_all_neighbors g) p =
      if p.1 < g.rows ∧ p.2 < g.cols then update_neighbors g p.1 p.2 else [] := by
  rcases p with ⟨r, c⟩
  show (((update_all_neighbors g).adj.getD r []).getD c []) = _
  have hadj : (update_all_neighbors g).adj =
      (List.range g.rows).map fun i =>
        (List.range g.cols).map fun j => update_neighbors g i j := rfl
  rw [hadj]
  by_cases hr : r < g.rows
  · have h1 : ((List.range g.rows).map fun i =>
        (List.range g.cols).map fun j => update_neighbors g i j).getD r [] =
        (List.range g.cols).map fun j => update_neighbors g r j := by
      rw [List.getD_eq_getElem?_getD, List.getElem?_map, List.getElem?_range hr]
      rfl
    rw [h1]
    by_cases hc : c < g.cols
    · have h2 : ((List.range g.cols).map fun j => update_neighbors g r j).getD c [] =
          update_neighbors g r c := by
        rw [List.getD_eq_getElem?_getD, List.getElem?_map, List.getElem?_range hc]
        rfl
      rw [h2, if_pos ⟨hr, hc⟩]
    · have h2 : ((List.range g.cols).map fun j => update_neighbors g r j).getD c [] =
          ([] : List Cell) := by
        rw [List.getD_eq_getElem?_getD, List.getElem?_eq_none]
        · rfl
        · simpa using Nat.le_of_not_lt hc
      rw [h2, if_neg (by tauto)]
  · have h1 : ((List.range g.rows).map fun i =>
        (List.range g.cols).map fun j => update_neighbors g i j).getD r [] =
        ([] : List (List Cell)) := by
      rw [List.getD_eq_getElem?_getD, List.getElem?_eq_none]
      · rfl
      · simpa using Nat.le_of_not_lt hr
    rw [h1, if_neg (by tauto)]
    rfl

/-- Membership in a freshly computed neighbor list forces the member not to
be tagged `Barrier`. -/
theorem not_barrier_of_mem_update_neighbors (g : Grid) (x y : Nat) (c : Cell)
    (hc : c ∈ update_neighbors g x y) : is_barrier g c = false := by
  simp only [update_neighbors, List.mem_append] at hc
  rcases hc with ((h | h) | h) | h <;>
    · rw [List.mem_ite_nil_right] at h
      rcases h with ⟨⟨-, hb⟩, hm⟩
      simp only [List.mem_singleton] at hm
      subst hm
      exact hb

/-- Claim C5 as amended: after adjacency is recomputed, a cell tagged
`Obstacle` never appears in the neighbor sequence of any cell (its own
included); its own neighbor sequence, however, is recomputed like any other
cell's and can be non-empty (`C5_counterexample`). -/
theorem C5_obstacle_not_anyones_neighbor (g : Grid) (c p : Cell)
    (hc : color_at g c = Color.Barrier) :
    c ∉ get_neighbors (update_all_neighbors g) p := by
  rw [get_neighbors_update_all]
  intro hmem
  split at hmem
  · have := not_barrier_of_mem_update_neighbors g p.1 p.2 c hmem
    rw [is_barrier, hc] at this
    simp at this
  · simp at hmem

/-- Witness for `C5_obstacle_not_anyones_neighbor` at the concrete grid
`g22b` (whose cell `(0,0)` is an obstacle). -/
theorem C5_obstacle_not_anyones_neighbor_witness :
    color_at (make_barrier (init_grid 2 2) (0, 0)) (0, 0) = Color.Barrier ∧
    (0, 0) ∉ get_neighbors (update_all_neighbors (make_barrier (init_grid 2 2) (0, 0))) (1, 0) :=
  ⟨by decide, C5_obstacle_not_anyones_neighbor _ _ (1, 0) (by decide)⟩

/-- The spec's description of `neighbors_of(cell)`: take the four adjacent
cells in the fixed order down `(row+1)`, up `(row-1)`, right `(col+1)`, left
`(col-1)`, and keep exactly those that are in bounds and not tagged
`Obstacle`. -/
def neighbors_spec (g : Grid) (x y : Nat) : List Cell :=
  (([((x : Int) + 1, (y : Int)), ((x : Int) - 1, (y : Int)),
     ((x : Int), (y : Int) + 1), ((x : Int), (y : Int) - 1)]).map fun p =>
    if 0 ≤ p.1 ∧ p.1 < (g.rows : Int) ∧ 0 ≤ p.2 ∧ p.2 < (g.cols : Int) ∧
        is_barrier g (p.1.toNat, p.2.toNat) = false
      then [((p.1.toNat, p.2.toNat) : Cell)] else []).flatten

/-- Claim C7: for every in-bounds cell, the recomputed neighbor list is
exactly the in-bounds, non-obstacle adjacent cells in the fixed order down,
up, right, left. -/
theorem C7_update_neighbors_matches_spec (g : Grid) (x y : Nat)
    (hx : x < g.rows) (hy : y < g.cols) :
    update_neighbors g x y = neighbors_spec g x y := by
  unfold update_neighbors neighbors_spec
  simp only [List.map_cons, List.map_nil]
  have htx1 : ((x : Int) + 1).toNat = x + 1 := by omega
  have htx2 : ((x : Int) - 1).toNat = x - 1 := by omega
  have hty1 : ((y : Int) + 1).toNat = y + 1 := by omega
  have hty2 : ((y : Int) - 1).toNat = y - 1 := by omega
  have htx : ((x : Int)).toNat = x := by omega
  have hty : ((y : Int)).toNat = y := by omega
  rw [htx1, htx2, hty1, hty2, htx, hty]
  have s1 : (if x < g.rows - 1 ∧ is_barrier g (x + 1, y) = false
        then [(((x + 1 : Nat), y) : Cell)] else []) =
      (if 0 ≤ (x : Int) + 1 ∧ (x : Int) + 1 < (g.rows : Int) ∧ 0 ≤ (y : Int) ∧
          (y : Int) < (g.cols : Int) ∧ is_barrier g (x + 1, y) = false
        then [(((x + 1 : Nat), y) : Cell)] else []) := by
    refine if_congr ⟨fun h => ⟨by omega, by omega, by omega, by omega, h.2⟩,
      fun h => ⟨by omega, h.2.2.2.2⟩⟩ rfl rfl
  have s2 : (if 0 < x ∧ is_barrier g (x - 1, y) = false
        then [(((x - 1 : Nat), y) : Cell)] else []) =
      (if 0 ≤ (x : Int) - 1 ∧ (x : Int) - 1 < (g.rows : Int) ∧ 0 ≤ (y : Int) ∧
          (y : Int) < (g.cols : Int) ∧ is_barrier g (x - 1, y) = false
        then [(((x - 1 : Nat), y) : Cell)] else []) := by
    refine if_congr ⟨fun h => ⟨by omega, by omega, by omega, by omega, h.2⟩,
      fun h => ⟨by omega, h.2.2.2.2⟩⟩ rfl rfl
  have s3 : (if y < g.cols - 1 ∧ is_barrier g (x, y + 1) = false
        then [((x, (y + 1 : Nat)) : Cell)] else []) =
      (if 0 ≤ (x : Int) ∧ (x : Int) < (g.rows : Int) ∧ 0 ≤ (y : Int) + 1 ∧
          (y : Int) + 1 < (g.cols : Int) ∧ is_barrier g (x, y + 1) = false
        then [((x, (y + 1 : Nat)) : Cell)] else []) := by
    refine if_congr ⟨fun h => ⟨by omega, by omega, by omega, by omega, h.2⟩,
      fun h => ⟨by omega, h.2.2.2.2⟩⟩ rfl rfl
  have s4 : (if 0 < y ∧ is_barrier g (x, y - 1) = false
        then [((x, (y - 1 : Nat)) : Cell)] else []) =
      (if 0 ≤ (x : Int) ∧ (x : Int) < (g.rows : Int) ∧ 0 ≤ (y : Int) - 1 ∧
          (y : Int) - 1 < (g.cols : Int) ∧ is_barrier g (x, y - 1) = false
        then [((x, (y - 1 : Nat)) : Cell)] else []) := by
    refine if_congr ⟨fun h => ⟨by omega, by omega, by omega, by omega, h.2⟩,
      fun h => ⟨by omega, h.2.2.2.2⟩⟩ rfl rfl
  rw [s1, s2, s3, s4]
  simp [List.flatten_cons, List.flatten_nil, List.append_assoc]

/-- Witness for `C7_update_neighbors_matches_spec`: the in-bounds cell
`(1,0)` of a 2×2 grid whose cell `(0,0)` is an obstacle. -/
theorem C7_update_neighbors_matches_spec_witness :
    update_neighbors (make_barrier (init_grid 2 2) (0, 0)) 1 0 =
      neighbors_spec (make_barrier (init_grid 2 2) (0, 0)) 1 0 :=
  C7_update_neighbors_matches_spec _ 1 0 (by decide) (by decide)

/-- Claim C2 as amended: the engine performs no input validation.  With
start == end, BFS and AStar dequeue the start cell, see it equals the end,
invoke the success sink once with an empty backward walk, and return true —
zero rounds, no tag mutated, not an error.  DFS ignores the coincidence
entirely and runs a traversal that mutates tags (shown on `g22se`, where it
leaves cell `(0,1)` tagged `Open` and returns false). -/
theorem C2_no_validation_start_eq_end :
    (∀ (g : Grid) (s : Cell),
      BFS g s s = some ⟨true, g, [], 0, 1, some [], [s], [s]⟩) ∧
    (∀ (g : Grid) (s : Cell),
      AStar g s s = some ⟨true, g, [], 0, 1, some [], [s], [s]⟩) ∧
    (DFS g22se (0, 0) (0, 0)).map (fun r => (r.found, color_at r.grid (0, 1))) =
      some (false, Color.Open) := by
  refine ⟨fun g s => ?_, fun g s => ?_, rfl⟩
  · show bfsAux (g.rows * g.cols + 1 + 1) g [s] [s] [] s s 0 [s] [] = _
    simp [bfsAux, construct_path, dict_get]
  · show astar_aux (g.rows * g.cols * (g.rows * g.cols) + 1 + 1)
      { g := g, q := [(0, 0, s)], item_order := 0, came_from := [],
        g_score := [(s, 0)], f_score := [(s, 0 + heuristic s s)],
        open_set := [s], steps := 0, enqueued := [s], expansions := [] } s s = _
    simp [astar_aux, popMin, construct_path, dict_get]

/-- `popMin` only returns `none` on the empty queue. -/
theorem popMin_eq_none {q : List (Nat × Nat × Cell)} (h : popMin q = none) :
    q = [] := by
  cases q with
  | nil => rfl
  | cons x xs =>
    rw [popMin] at h
    cases hxs : popMin xs with
    | none => rw [hxs] at h; simp at h
    | some p =>
      obtain ⟨m', rest'⟩ := p
      rw [hxs] at h
      dsimp only at h
      split at h <;> simp at h

/-- The entry `popMin` extracts is a queue element that is minimal in the
lexicographic `(f_score, insertion_order)` order, with ties on `f_score`
resolved toward the oldest insertion. -/
theorem popMin_min : ∀ (q : List (Nat × Nat × Cell)) (m : Nat × Nat × Cell)
    (rest : List (Nat × Nat × Cell)), popMin q = some (m, rest) →
    m ∈ q ∧ ∀ y ∈ q, m.1 < y.1 ∨ (m.1 = y.1 ∧ m.2.1 ≤ y.2.1) := by
  intro q
  induction q with
  | nil => intro m rest h; simp [popMin] at h
  | cons x xs ih =>
    intro m rest h
    rw [popMin] at h
    cases hxs : popMin xs with
    | none =>
      rw [hxs] at h
      simp only [Option.some.injEq, Prod.mk.injEq] at h
      obtain ⟨hm, -⟩ := h
      subst hm
      have hnil := popMin_eq_none hxs
      subst hnil
      exact ⟨List.mem_cons_self x [], by
        intro y hy
        simp only [List.mem_singleton] at hy
        subst hy
        omega⟩
    | some p =>
      obtain ⟨m', rest'⟩ := p
      rw [hxs] at h
      dsimp only at h
      have ih' := ih m' rest' hxs
      by_cases hc : x.1 < m'.1 ∨ (x.1 = m'.1 ∧ x.2.1 ≤ m'.2.1)
      · rw [if_pos hc] at h
        simp only [Option.some.injEq, Prod.mk.injEq] at h
        obtain ⟨hm, -⟩ := h
        subst hm
        refine ⟨List.mem_cons_self x xs, ?_⟩
        intro y hy
        rcases List.mem_cons.mp hy with hyx | hyxs
        · subst hyx; omega
        · have hmy := ih'.2 y hyxs
          omega
      · rw [if_neg hc] at h
        simp only [Option.some.injEq, Prod.mk.injEq] at h
        obtain ⟨hm, -⟩ := h
        subst hm
        refine ⟨List.mem_cons_of_mem x ih'.1, ?_⟩
        intro y hy
        rcases List.mem_cons.mp hy with hyx | hyxs
        · subst hyx; omega
        · exact ih'.2 y hyxs

/-- Claim C8: AStar is deterministic — identical inputs give identical
expansion and step-callback traces — and its priority queue extraction is
governed by the lexicographic `(f_score, insertion_order)` order with ties
broken toward the oldest insertion (`popMin_min` applied to the queue the
run maintains). -/
theorem C8_astar_deterministic_tiebreak :
    (∀ (g : Grid) (s e : Cell),
      (AStar g s e).map (fun r => (r.expansions, r.steps)) =
        (AStar g s e).map (fun r => (r.expansions, r.steps))) ∧
    (∀ (q : List (Nat × Nat × Cell)) m rest, popMin q = some (m, rest) →
      m ∈ q ∧ ∀ y ∈ q, m.1 < y.1 ∨ (m.1 = y.1 ∧ m.2.1 ≤ y.2.1)) :=
  ⟨fun _ _ _ => rfl, popMin_min⟩

/-- Witness for `C8_astar_deterministic_tiebreak`: on the concrete
three-entry queue with f-scores 3, 1, 1, the extracted entry is the older of
the two f-score-1 insertions and is lexicographically minimal. -/
theorem C8_astar_deterministic_tiebreak_witness :
    ((1, 1, ((1, 1) : Cell)) ∈
        [((3, 0, ((0, 0) : Cell)) : Nat × Nat × Cell), (1, 1, (1, 1)), (1, 2, (0, 1))]) ∧
    ((1 : Nat) < 3 ∨ ((1 : Nat) = 3 ∧ (1 : Nat) ≤ 0)) ∧
    ((1 : Nat) < 1 ∨ ((1 : Nat) = 1 ∧ (1 : Nat) ≤ 2)) :=
  ⟨(C8_astar_deterministic_tiebreak.2
      [(3, 0, (0, 0)), (1, 1, (1, 1)), (1, 2, (0, 1))] (1, 1, (1, 1))
      [(3, 0, (0, 0)), (1, 2, (0, 1))] (by decide)).1,
   (C8_astar_deterministic_tiebreak.2
      [(3, 0, (0, 0)), (1, 1, (1, 1)), (1, 2, (0, 1))] (1, 1, (1, 1))
      [(3, 0, (0, 0)), (1, 2, (0, 1))] (by decide)).2 (3, 0, (0, 0)) (by decide),
   (C8_astar_deterministic_tiebreak.2
      [(3, 0, (0, 0)), (1, 1, (1, 1)), (1, 2, (0, 1))] (1, 1, (1, 1))
      [(3, 0, (0, 0)), (1, 2, (0, 1))] (by decide)).2 (1, 2, (0, 1)) (by decide)⟩

/-- Color mutation leaves the stored adjacency untouched. -/
theorem get_neighbors_set_color (g : Grid) (n : Cell) (col : Color) (c : Cell) :
    get_neighbors (set_color g n col) c = get_neighbors g c := rfl

/-- Color mutation leaves the row count untouched. -/
theorem rows_set_color (g : Grid) (n : Cell) (col : Color) :
    (set_color g n col).rows = g.rows := rfl

/-- Color mutation leaves the column count untouched. -/
theorem cols_set_color (g : Grid) (n : Cell) (col : Color) :
    (set_color g n col).cols = g.cols := rfl

/-- One BFS expansion appends the same block of newly discovered cells — each
taken from the neighbor list and unvisited at the moment of its enqueue — to
the queue, the visited list and the enqueue trace, and only recolors cells. -/
theorem bfs_expand_spec : ∀ (ns : List Cell) (g : Grid) (q visited : List Cell)
    (cf : List (Cell × Cell)) (enq : List Cell) (cur e : Cell),
    ∃ (new : List Cell) (g' : Grid) (cf' : List (Cell × Cell)),
      bfs_expand g ns q visited cf enq cur e =
        (g', q ++ new, visited ++ new, cf', enq ++ new) ∧
      new.Nodup ∧ (∀ x ∈ new, x ∈ ns ∧ x ∉ visited) ∧
      (∀ c, get_neighbors g' c = get_neighbors g c) ∧
      g'.rows = g.rows ∧ g'.cols = g.cols := by
  intro ns
  induction ns with
  | nil =>
    intro g q visited cf enq cur e
    exact ⟨[], g, cf, by simp [bfs_expand], List.nodup_nil, by simp,
      fun _ => rfl, rfl, rfl⟩
  | cons n ns ih =>
    intro g q visited cf enq cur e
    by_cases hn : n ∈ visited
    · obtain ⟨new, g', cf', heq, hnd, hprop, hpres, hr, hc⟩ :=
        ih g q visited cf enq cur e
      refine ⟨new, g', cf', ?_, hnd, ?_, hpres, hr, hc⟩
      · rw [bfs_expand, if_pos hn, heq]
      · exact fun x hx => ⟨List.mem_cons_of_mem n (hprop x hx).1, (hprop x hx).2⟩
    · set g₁ := if n = e then g else make_open g n with hg₁
      obtain ⟨new', g', cf', heq, hnd, hprop, hpres, hr, hc⟩ :=
        ih g₁ (q ++ [n]) (visited ++ [n]) (dict_set cf n cur) (enq ++ [n]) cur e
      have hg₁pres : ∀ c, get_neighbors g₁ c = get_neighbors g c := by
        intro c; rw [hg₁]; split <;> rfl
      have hg₁rows : g₁.rows = g.rows := by
        rw [hg₁]; split <;> rfl
      have hg₁cols : g₁.cols = g.cols := by
        rw [hg₁]; split <;> rfl
      refine ⟨n :: new', g', cf', ?_, ?_, ?_, ?_, ?_, ?_⟩
      · rw [bfs_expand, if_neg hn, ← hg₁, heq]
        simp
      · refine List.nodup_cons.mpr ⟨fun hmem => ?_, hnd⟩
        have := (hprop n hmem).2
        simp at this
      · intro x hx
        rcases List.mem_cons.mp hx with hxn | hxnew
        · rw [hxn]; exact ⟨List.mem_cons_self n ns, hn⟩
        · refine ⟨List.mem_cons_of_mem n (hprop x hxnew).1, fun hxv => ?_⟩
          exact (hprop x hxnew).2 (List.mem_append_left [n] hxv)
      · intro c; rw [hpres c, hg₁pres c]
      · rw [hr, hg₁rows]
      · rw [hc, hg₁cols]

/-- The finite universe of in-bounds cells of a grid. -/
def cellsF (g : Grid) : Finset Cell := Finset.range g.rows ×ˢ Finset.range g.cols

/-- With in-bounds adjacency, `rows*cols`-plus-slack fuel never runs out:
every iteration dequeues one cell and enqueues only fresh in-bounds cells,
each marked visited at the moment of its enqueue, so the quantity
`|unvisited in-bounds cells| + |queue|` strictly decreases; and the enqueue
trace stays duplicate-free because it coincides with the visited list. -/
theorem bfsAux_total : ∀ (fuel : Nat) (g : Grid) (q visited : List Cell)
    (cf : List (Cell × Cell)) (s e : Cell) (st : Nat) (enq exp : List Cell),
    (∀ c n, n ∈ get_neighbors g c → n.1 < g.rows ∧ n.2 < g.cols) →
    visited.Nodup → enq = visited →
    ((cellsF g) \ visited.toFinset).card + q.length + 1 ≤ fuel →
    ∃ r, bfsAux fuel g q visited cf s e st enq exp = some r ∧ r.enqueued.Nodup := by
  intro fuel
  induction fuel with
  | zero => intro g q visited cf s e st enq exp _ _ _ hfuel; omega
  | succ fuel ih =>
    intro g q visited cf s e st enq exp hadj hnd henq hfuel
    cases q with
    | nil =>
      refine ⟨_, by rw [bfsAux], ?_⟩
      show enq.Nodup
      rw [henq]
      exact hnd
    | cons cur rest =>
      by_cases hce : cur = e
      · refine ⟨_, by rw [bfsAux, if_pos hce], ?_⟩
        show enq.Nodup
        rw [henq]
        exact hnd
      · obtain ⟨new, g', cf', heq, hndnew, hprop, hpres, hr, hc⟩ :=
          bfs_expand_spec (get_neighbors g cur) g rest visited cf enq cur e
        set g'' := if cur = s then g' else make_closed g' cur with hg''
        have hg''pres : ∀ c, get_neighbors g'' c = get_neighbors g c := by
          intro c
          rw [hg'']
          split
          · exact hpres c
          · rw [make_closed, get_neighbors_set_color]; exact hpres c
        have hg''rows : g''.rows = g.rows := by
          rw [hg'']; split
          · exact hr
          · rw [make_closed, rows_set_color]; exact hr
        have hg''cols : g''.cols = g.cols := by
          rw [hg'']; split
          · exact hc
          · rw [make_closed, cols_set_color]; exact hc
        have hcells : cellsF g'' = cellsF g := by
          rw [cellsF, cellsF, hg''rows, hg''cols]
        have hnewcells : ∀ x ∈ new, x ∈ cellsF g := by
          intro x hx
          have hb := hadj cur x (hprop x hx).1
          simp only [cellsF, Finset.mem_product, Finset.mem_range]
          exact hb
        have hdisj : visited.Disjoint new := by
          intro a hav han
          exact (hprop a han).2 hav
        have hndv : (visited ++ new).Nodup := hnd.append hndnew hdisj
        have hsub : new.toFinset ⊆ (cellsF g) \ visited.toFinset := by
          intro x hx
          rw [List.mem_toFinset] at hx
          rw [Finset.mem_sdiff, List.mem_toFinset]
          exact ⟨hnewcells x hx, (hprop x hx).2⟩
        have hsd : (cellsF g) \ (visited ++ new).toFinset =
            ((cellsF g) \ visited.toFinset) \ new.toFinset := by
          ext x
          simp only [Finset.mem_sdiff, List.toFinset_append, Finset.mem_union,
            List.mem_toFinset]
          tauto
        have hcard : ((cellsF g) \ (visited ++ new).toFinset).card =
            ((cellsF g) \ visited.toFinset).card - new.length := by
          rw [hsd, Finset.card_sdiff hsub, List.toFinset_card_of_nodup hndnew]
        have hle : new.length ≤ ((cellsF g) \ visited.toFinset).card := by
          calc new.length = new.toFinset.card :=
                (List.toFinset_card_of_nodup hndnew).symm
            _ ≤ _ := Finset.card_le_card hsub
        obtain ⟨r, hrun, hrnd⟩ := ih g'' (rest ++ new) (visited ++ new) cf' s e
          (st + 1) (enq ++ new) (exp ++ [cur])
          (fun c n hm => by
            rw [hg''pres c] at hm
            rw [hg''rows, hg''cols]
            exact hadj c n hm)
          hndv (by rw [henq])
          (by
            rw [hcells, hcard, List.length_append]
            simp only [List.length_append, List.length_cons] at hfuel
            omega)
        refine ⟨r, ?_, hrnd⟩
        rw [bfsAux, if_neg hce, heq]
        exact hrun

/-- Claim C10: BFS terminates on every grid whose stored adjacency lists
point in bounds (as `update_all_neighbors` guarantees), for any start and end
cells — the supplied `rows*cols + 2` fuel is never exhausted — and every cell
is enqueued at most once, because a cell joins the visited set at the moment
it is enqueued and only unvisited cells are ever enqueued. -/
theorem C10_bfs_terminates_enqueues_once (g : Grid) (s e : Cell)
    (hadj : ∀ c n, n ∈ get_neighbors g c → n.1 < g.rows ∧ n.2 < g.cols) :
    ∃ r, BFS g s e = some r ∧ r.enqueued.Nodup := by
  apply bfsAux_total (g.rows * g.cols + 2) g [s] [s] [] s e 0 [s] [] hadj
    (List.nodup_singleton s) rfl
  have h1 : ((cellsF g) \ [s].toFinset).card ≤ (cellsF g).card :=
    Finset.card_le_card (Finset.sdiff_subset)
  have h2 : (cellsF g).card = g.rows * g.cols := by
    rw [cellsF, Finset.card_product, Finset.card_range, Finset.card_range]
  simp only [List.length_singleton]
  omega

/-- Adjacency recomputed by `update_all_neighbors` always points in
bounds. -/
theorem update_all_neighbors_inbounds (g : Grid) :
    ∀ c n, n ∈ get_neighbors (update_all_neighbors g) c →
      n.1 < (update_all_neighbors g).rows ∧ n.2 < (update_all_neighbors g).cols := by
  intro c n hmem
  rw [get_neighbors_update_all] at hmem
  split at hmem
  case isTrue h =>
    show n.1 < g.rows ∧ n.2 < g.cols
    obtain ⟨hr, hc⟩ := h
    simp only [update_neighbors, List.mem_append, List.mem_ite_nil_right,
      List.mem_singleton] at hmem
    rcases hmem with ((⟨⟨hb, -⟩, hn⟩ | ⟨⟨hb, -⟩, hn⟩) | ⟨⟨hb, -⟩, hn⟩) | ⟨⟨hb, -⟩, hn⟩ <;>
      subst hn <;> constructor <;> simp <;> omega
  case isFalse => simp at hmem

/-- Witness for `C10_bfs_terminates_enqueues_once`: a freshly recomputed 2×2
grid. -/
theorem C10_bfs_terminates_enqueues_once_witness :
    ∃ r, BFS (update_all_neighbors (init_grid 2 2)) (0, 0) (1, 1) = some r ∧
      r.enqueued.Nodup :=
  C10_bfs_terminates_enqueues_once _ (0, 0) (1, 1)
    (update_all_neighbors_inbounds _)

end PyGraphVisualizer
